import Mathlib

/-!
Verification of the PatientPy experiment driver
(`InstantiateExperimentDriver.py`, `assemble_feature_matrix.py`).

The Python source is shallowly embedded: files are modelled as lists of
lines, numpy arrays as rectangular lists of lists, Python `str` helpers
(`rstrip`, `split`, `int`, `list.index`, `in`) as structurally recursive
functions on `String`/`List Char`, and fallible operations as
`Except String`.
-/

namespace PatientPy

/-! ## Python string and list primitives -/

/-- Python `list.index(x)`: position of the first occurrence of `x`,
`none` models the `ValueError` raised when `x` is absent. -/
def pyIndex {α : Type} [DecidableEq α] (x : α) : List α → Option Nat
  | [] => none
  | y :: rest => if y = x then some 0 else (pyIndex x rest).map (· + 1)

/-- Python `str.rstrip()`: drop trailing whitespace characters. -/
def pyRstrip (s : String) : String :=
  String.mk ((s.data.reverse.dropWhile Char.isWhitespace).reverse)

/-- Helper for `pySplit`: accumulates the current field (reversed). -/
def pySplitAux (sep : Char) : List Char → List Char → List String
  | [], acc => [String.mk acc.reverse]
  | c :: rest, acc =>
    if c = sep then String.mk acc.reverse :: pySplitAux sep rest []
    else pySplitAux sep rest (c :: acc)

/-- Python `str.split(sep)` for a one-character separator. -/
def pySplit (s : String) (sep : Char) : List String :=
  pySplitAux sep s.data []

/-- Numeric value of a decimal digit character. -/
def digitVal (c : Char) : Option Nat :=
  if '0' ≤ c ∧ c ≤ '9' then some (c.toNat - '0'.toNat) else none

/-- Decimal digits to a natural number; `none` on a non-digit. -/
def digitsToNatAux : List Char → Nat → Option Nat
  | [], acc => some acc
  | c :: rest, acc =>
    match digitVal c with
    | none => none
    | some d => digitsToNatAux rest (acc * 10 + d)

/-- Python `int(s)` on a string: strip whitespace, optional sign, decimal
digits; `none` models the `ValueError` on anything else. -/
def pyInt (s : String) : Option Int :=
  let cs := ((s.data.dropWhile Char.isWhitespace).reverse.dropWhile Char.isWhitespace).reverse
  match cs with
  | [] => none
  | '+' :: rest =>
    if rest = [] then none else (digitsToNatAux rest 0).map (fun n => (n : Int))
  | '-' :: rest =>
    if rest = [] then none else (digitsToNatAux rest 0).map (fun n => -(n : Int))
  | _ => (digitsToNatAux cs 0).map (fun n => (n : Int))

/-- Python `sub in s` (contiguous substring containment). -/
def strContains (s pat : String) : Bool :=
  (List.range (s.length + 1)).any
    (fun i => decide ((s.data.drop i).take pat.data.length = pat.data))

/-! ## Sample Indexer: `load_target_present_rows`
(`InstantiateExperimentDriver.py` lines 155-173) -/

/-- Loop body of `load_target_present_rows`.  State: remaining lines,
the `first_line` flag, `target_name_file_column_idx` (set while reading
the header line; the Python initial value `False` would index as `0` and
is unreachable once the header has been read), and the accumulated
`target_present_rows`.  A blank line (after `rstrip`) breaks the loop. -/
def loadPresentAux (target_name : String) :
    List String → Bool → Option Nat → List String → Except String (List String)
  | [], _, _, acc => Except.ok acc
  | full_line :: rest, first_line, col_idx, acc =>
    if pyRstrip full_line = "" then Except.ok acc
    else
      let split_line := pySplit (pyRstrip full_line) ','
      if first_line then
        match pyIndex target_name split_line with
        | none => Except.error "ValueError: target_name is not in list"
        | some i => loadPresentAux target_name rest false (some i) acc
      else
        match split_line.get? (col_idx.getD 0) with
        | none => Except.error "IndexError: list index out of range"
        | some cell =>
          match pyInt cell with
          | none => Except.error "ValueError: invalid literal for int"
          | some v =>
            if v ≠ 0 then
              match split_line.get? 1 with
              | none => Except.error "IndexError: list index out of range"
              | some cid => loadPresentAux target_name rest first_line col_idx (acc ++ [cid])
            else loadPresentAux target_name rest first_line col_idx acc

/-- `load_target_present_rows(item_present_file, target_name)`, with the
file modelled as its list of lines: the header row locates the target
column, each following row contributes `split_line[1]` (the case id)
whenever the target cell parses to a non-zero int; scanning stops at the
first blank line. -/
def load_target_present_rows (file_lines : List String) (target_name : String) :
    Except String (List String) :=
  loadPresentAux target_name file_lines true none []

/-! ## Sample Indexer: per-target row computation
(`InstantiateExperimentDriver.py` lines 186-214) -/

/-- The per-target accumulators of
`determine_feature_matrix_and_target_matrix_rows`: the three `full`
lists and the three lists of five fold buckets. -/
structure SampleRecords where
  samples_full : List Nat
  target_full : List Nat
  feat_targ_full : List String
  sam_folds : List (List Nat)
  tar_folds : List (List Nat)
  feat_folds : List (List String)
deriving DecidableEq

/-- `folds[i].append(x)`: replace bucket `i` by itself extended with `x`. -/
def updateFold {α : Type} (folds : List (List α)) (i : Nat) (x : α) : List (List α) :=
  folds.set i (folds.getD i [] ++ [x])

/-- Loop of lines 195-203: walk `case_order_rows` with `enumerate` index
`idx` and presence counter `count`; a case present for the target
contributes its feature row index, its first position in
`target_case_rows` (`.index`, `ValueError` when absent), and its case id,
both to the `full` lists and to fold bucket `count % 5`. -/
def computeAux (tcr tpr : List String) :
    List String → Nat → Nat → SampleRecords → Except String SampleRecords
  | [], _, _, st => Except.ok st
  | case_id :: rest, idx, count, st =>
    if case_id ∈ tpr then
      match pyIndex case_id tcr with
      | none => Except.error "ValueError: case_id is not in list"
      | some tIdx =>
        computeAux tcr tpr rest (idx + 1) (count + 1)
          { samples_full := st.samples_full ++ [idx]
            target_full := st.target_full ++ [tIdx]
            feat_targ_full := st.feat_targ_full ++ [case_id]
            sam_folds := updateFold st.sam_folds (count % 5) idx
            tar_folds := updateFold st.tar_folds (count % 5) tIdx
            feat_folds := updateFold st.feat_folds (count % 5) case_id }
    else
      computeAux tcr tpr rest (idx + 1) count st

/-- Initial accumulators of lines 188-194: empty `full` lists and five
empty fold buckets. -/
def initRecords : SampleRecords :=
  { samples_full := []
    target_full := []
    feat_targ_full := []
    sam_folds := List.replicate 5 []
    tar_folds := List.replicate 5 []
    feat_folds := List.replicate 5 [] }

/-- Rows computed for one target from its `target_present_rows`. -/
def computeRows (case_order tcr tpr : List String) : Except String SampleRecords :=
  computeAux tcr tpr case_order 0 0 initRecords

/-- Per-target body of `determine_feature_matrix_and_target_matrix_rows`
as written: line 187 reads `parmas['item_present_file']`, and `parmas`
is defined nowhere in the module (the module-level name is `params`),
so every execution raises `NameError` before the item-present file is
read or any record is emitted. -/
def determine_rows_for_target (_item_present_lines _case_order _tcr : List String)
    (_target_name : String) : Except String SampleRecords :=
  Except.error "NameError: name parmas is not defined"

/-- The per-target body with line 187 reading the configured
`params['item_present_file']`, which is plainly what the misspelt
`parmas` intends: load the target-present case ids, then walk the
feature-matrix case order. -/
def determine_rows_for_target_intended (item_present_lines case_order tcr : List String)
    (target_name : String) : Except String SampleRecords :=
  (load_target_present_rows item_present_lines target_name).bind
    (fun tpr => computeRows case_order tcr tpr)

/-! ## Feature selection: inverse sample sets
(`InstantiateExperimentDriver.py` lines 262-278) -/

/-- Loop of lines 273-275: walk the `_full` sample list and keep each
row index not occurring in the given fold's sample list. -/
def build_inverse : List Int → List Int → List Int
  | [], _ => []
  | x :: rest, fold_samples =>
    if x ∈ fold_samples then build_inverse rest fold_samples
    else x :: build_inverse rest fold_samples

/-- Inverse sample list of `run_feature_selection` for one `model_key`
(lines 264-275): a key containing `_full` maps to its own sample list;
any other key maps to the rows of its target's `_full` list that are
absent from this key's list.  `samples` models the `feature_samples`
(or `target_samples`) dictionary. -/
def inverse_samples_for_key (samples : String → List Int) (model_key : String) : List Int :=
  if strContains model_key "_full" then samples model_key
  else
    build_inverse (samples ((pySplit model_key '_').headD "" ++ "_full"))
      (samples model_key)

/-! ## Model training: best-combination selection
(`InstantiateExperimentDriver.py` lines 406-447) -/

/-- Python `max(scores)` over a list of (rational-modelled) mean scores;
`none` models the `ValueError` on an empty list. -/
def pyMax (scores : List ℚ) : Option ℚ :=
  match scores with
  | [] => none
  | x :: rest => some (rest.foldl (fun acc y => if y > acc then y else acc) x)

/-- Line 408, `scores.index(max_score)`: the first position holding the
maximum score. -/
def best_score_index (scores : List ℚ) : Option Nat :=
  (pyMax scores).bind (fun m => pyIndex m scores)

/-- The fixed enumeration order of the six combinations built at
line 406 and dispatched at lines 410-445. -/
def model_type_names : List String := ["lr-m", "sv-m", "rf-m", "lr-r", "sv-r", "rf-r"]

/-- The `model_type` chosen by the `elif` chain of lines 410-447 from the
index of the best mean score (`none` models the fall-through `else`
branch, unreachable for six scores). -/
def choose_model_type (scores : List ℚ) : Option String :=
  (best_score_index scores).bind (fun i => model_type_names.get? i)

/-! ## Model training: feature-selection result files
(`InstantiateExperimentDriver.py` lines 332-348) -/

/-- One row of a feature-selection result file, `model_type:indices`
(lines 336-340): `row.split(':')` must yield exactly two parts (else the
tuple unpacking raises `ValueError`); a non-empty index part is parsed
as comma-separated ints, an empty one yields the sentinel `[0]`. -/
def parse_fs_row (row : String) : Except String (String × List Int) :=
  match pySplit row ':' with
  | [model_type, str_indices] =>
    if str_indices.length ≠ 0 then
      match (pySplit str_indices ',').mapM pyInt with
      | none => Except.error "ValueError: invalid literal for int"
      | some l => Except.ok (model_type, l)
    else Except.ok (model_type, [0])
  | _ => Except.error "ValueError: unpacking row.split requires two values"

/-- The rows of one result file entered into `feature_dir` with the
imputation suffix (`-m` at lines 335-340, `-r` at lines 342-347),
modelled as an association list in insertion order. -/
def load_fs_rows (sfx : String) (rows : List String) :
    Except String (List (String × List Int)) :=
  rows.mapM (fun row => (parse_fs_row row).map (fun p => (p.1 ++ sfx, p.2)))

/-! ## Matrix assembler (`assemble_feature_matrix.py`) -/

/-- A numpy array as loaded/concatenated by `assemble_feature_matrix`:
either 1-dimensional or 2-dimensional (row-major). -/
inductive NpArray where
  | one (v : List ℚ)
  | two (m : List (List ℚ))
deriving DecidableEq

/-- `arr.ndim`. -/
def NpArray.ndim : NpArray → Nat
  | NpArray.one _ => 1
  | NpArray.two _ => 2

/-- `arr.shape[0]`. -/
def NpArray.nrows : NpArray → Nat
  | NpArray.one v => v.length
  | NpArray.two m => m.length

/-- `arr.shape[1]` of a 2-D array (0 for a 1-D array, which has none). -/
def NpArray.ncols : NpArray → Nat
  | NpArray.one _ => 0
  | NpArray.two m => (m.headD []).length

/-- `np.concatenate((a, b), axis=1)`: column-wise concatenation of two
2-D arrays with equal row counts; anything else raises. -/
def npConcatAxis1 : NpArray → NpArray → Except String NpArray
  | NpArray.two a, NpArray.two b =>
    if a.length = b.length then
      Except.ok (NpArray.two (List.zipWith (fun r s => r ++ s) a b))
    else Except.error "ValueError: concatenate row-count mismatch"
  | _, _ => Except.error "ValueError: concatenate axis 1 needs 2-D arrays"

/-- `np.concatenate((a, b), axis=0)`: row-wise concatenation of arrays
of equal dimensionality (and equal column counts when 2-D). -/
def npConcatAxis0 : NpArray → NpArray → Except String NpArray
  | NpArray.two a, NpArray.two b =>
    if NpArray.ncols (NpArray.two a) = NpArray.ncols (NpArray.two b) then
      Except.ok (NpArray.two (a ++ b))
    else Except.error "ValueError: concatenate column-count mismatch"
  | NpArray.one a, NpArray.one b => Except.ok (NpArray.one (a ++ b))
  | _, _ => Except.error "ValueError: concatenate dimension mismatch"

/-- The nested `concat` of `assemble_feature_matrix.py` lines 48-62:
index 0 replaces the accumulators; otherwise a 2-D payload concatenates
data on axis 1, a non-2-D payload on axis 0, and names always on
axis 0.  `none` accumulators model the Python initial int `0`, on which
`np.concatenate` would raise. -/
def concat (c_idx : Nat) (f_data : Option NpArray) (f_names : Option (List String))
    (l_data : NpArray) (l_names : List String) : Except String (NpArray × List String) :=
  if c_idx = 0 then Except.ok (l_data, l_names)
  else
    match f_data, f_names with
    | some fd, some fn =>
      if l_data.ndim = 2 then
        (npConcatAxis1 fd l_data).map (fun d => (d, fn ++ l_names))
      else
        (npConcatAxis0 fd l_data).map (fun d => (d, fn ++ l_names))
    | _, _ => Except.error "TypeError: full_data is not an array"

/-- The `for idx, curr_type in enumerate(...)` loop of lines 81-96 with
each feature type's already-loaded payload `(loaded_data, loaded_names)`
passed through `concat`. -/
def assembleAux : List (NpArray × List String) → Nat → Option (NpArray × List String) →
    Except String (NpArray × List String)
  | [], _, none => Except.error "AttributeError: no feature type was processed"
  | [], _, some r => Except.ok r
  | (l_data, l_names) :: rest, idx, acc =>
    match concat idx (acc.map (fun p => p.1)) (acc.map (fun p => p.2)) l_data l_names with
    | Except.error e => Except.error e
    | Except.ok r => assembleAux rest (idx + 1) (some r)

/-- The assembled `(full_data, full_names)` of `assemble_feature_matrix`
over the per-type payloads, before the optional column-matching block. -/
def assemble_loop (payloads : List (NpArray × List String)) :
    Except String (NpArray × List String) :=
  assembleAux payloads 0 none

/-- A well-formed per-type payload: 2-D data whose every row has exactly
one entry per name (so its column count equals its name count). -/
def validPayload (p : NpArray × List String) : Bool :=
  match p.1 with
  | NpArray.two m => m.all (fun row => row.length == p.2.length)
  | NpArray.one _ => false

/-! ## Matrix assembler: column-matching block
(`assemble_feature_matrix.py` lines 113-121) -/

/-- `np.where(full_names == name)` on the assembled name vector, which
is 1-D at line 116: a 1-tuple holding the array of matching positions. -/
def npWhereEq (full_names : List String) (nm : String) : List (List Nat) :=
  [(full_names.enum.filter (fun p => decide (p.2 = nm))).map Prod.fst]

/-- Loop of lines 115-118: each iteration recomputes
`column_index_result` and reads `column_index_result[1]` — element 1 of
the 1-tuple returned by `np.where`, an `IndexError`.  Were it readable,
a non-empty match would append its first position to `new_indicies`.
On normal exit the block would go on to index `full_data` and
`full_names` with the *last* `column_index_result` (lines 119-120),
which the result pairs with `new_indicies`. -/
def columnMatchAux (full_names : List String) :
    List String → List Nat → Option (List (List Nat)) →
    Except String (List Nat × List (List Nat))
  | [], new_indicies, last =>
    match last with
    | none => Except.error "NameError: name column_index_result is not defined"
    | some cir => Except.ok (new_indicies, cir)
  | curr :: rest, new_indicies, _ =>
    let cir := npWhereEq full_names curr
    match cir.get? 1 with
    | none => Except.error "IndexError: tuple index out of range"
    | some arr =>
      if arr.length ≠ 0 then
        columnMatchAux full_names rest (new_indicies ++ [arr.headD 0]) (some cir)
      else columnMatchAux full_names rest new_indicies (some cir)

/-- The `if len(feature_columns_to_match):` block of lines 113-121; an
empty request list skips the block (modelled as the pair of an empty
index list and an empty last result). -/
def column_match_block (full_names to_match : List String) :
    Except String (List Nat × List (List Nat)) :=
  if to_match.length ≠ 0 then columnMatchAux full_names to_match [] none
  else Except.ok ([], [])

/-! ## Helper lemmas about the Python primitives -/

theorem pyIndex_eq_none {α : Type} [DecidableEq α] (x : α) :
    ∀ l : List α, x ∉ l → pyIndex x l = none := by
  intro l
  induction l with
  | nil => intro _; rfl
  | cons y rest ih =>
    intro h
    have hy : y ≠ x := fun hxy => h (hxy ▸ List.mem_cons_self y rest)
    have hr : x ∉ rest := fun hx => h (List.mem_cons_of_mem y hx)
    simp [pyIndex, hy, ih hr]

theorem pyIndex_exists_of_mem {α : Type} [DecidableEq α] (x : α) :
    ∀ l : List α, x ∈ l → ∃ i, pyIndex x l = some i := by
  intro l
  induction l with
  | nil => intro h; cases h
  | cons y rest ih =>
    intro h
    by_cases hy : y = x
    · exact ⟨0, by simp [pyIndex, hy]⟩
    · have hr : x ∈ rest := by
        cases List.mem_cons.mp h with
        | inl h0 => exact absurd h0.symm hy
        | inr h0 => exact h0
      obtain ⟨i, hi⟩ := ih hr
      exact ⟨i + 1, by simp [pyIndex, hy, hi]⟩

theorem pyIndex_spec {α : Type} [DecidableEq α] (x d : α) :
    ∀ (l : List α) (i : Nat), pyIndex x l = some i →
      i < l.length ∧ l.getD i d = x ∧ ∀ j, j < i → l.getD j d ≠ x := by
  intro l
  induction l with
  | nil => intro i h; cases h
  | cons y rest ih =>
    intro i h
    by_cases hy : y = x
    · rw [pyIndex, if_pos hy] at h
      cases h
      exact ⟨Nat.succ_pos _, hy, fun j hj => absurd hj (Nat.not_lt_zero j)⟩
    · rw [pyIndex, if_neg hy] at h
      cases hpi : pyIndex x rest with
      | none => rw [hpi] at h; cases h
      | some i' =>
        rw [hpi] at h
        simp only [Option.map_some'] at h
        cases h
        obtain ⟨h1, h2, h3⟩ := ih i' hpi
        refine ⟨Nat.succ_lt_succ h1, h2, ?_⟩
        intro j hj
        cases j with
        | zero => simpa using hy
        | succ j' => simpa using h3 j' (Nat.lt_of_succ_lt_succ hj)

theorem getD_set_self {α : Type} :
    ∀ (l : List α) (i : Nat) (x d : α), i < l.length → (l.set i x).getD i d = x := by
  intro l
  induction l with
  | nil => intro i x d h; cases h
  | cons y rest ih =>
    intro i x d h
    cases i with
    | zero => rfl
    | succ i' => simpa using ih i' x d (Nat.lt_of_succ_lt_succ h)

theorem getD_set_ne {α : Type} :
    ∀ (l : List α) (i j : Nat) (x d : α), i ≠ j → (l.set i x).getD j d = l.getD j d := by
  intro l
  induction l with
  | nil => intro i j x d _; simp
  | cons y rest ih =>
    intro i j x d hij
    cases i with
    | zero =>
      cases j with
      | zero => exact absurd rfl hij
      | succ j' => simp
    | succ i' =>
      cases j with
      | zero => rfl
      | succ j' => simpa using ih i' j' x d (fun h => hij (congrArg Nat.succ h))

theorem updateFold_length {α : Type} (folds : List (List α)) (i : Nat) (x : α) :
    (updateFold folds i x).length = folds.length :=
  List.length_set folds i _

theorem updateFold_getD {α : Type} (folds : List (List α)) (i : Nat) (x : α)
    (h : i < folds.length) (f : Nat) :
    (updateFold folds i x).getD f [] =
      if f = i then folds.getD i [] ++ [x] else folds.getD f [] := by
  by_cases hf : f = i
  · subst hf
    simp only [if_pos rfl]
    exact getD_set_self folds f _ [] h
  · rw [if_neg hf]
    exact getD_set_ne folds i f _ [] (fun hif => hf hif.symm)

theorem getD_replicate_self {α : Type} (d : α) :
    ∀ (n f : Nat), (List.replicate n d).getD f d = d := by
  intro n
  induction n with
  | zero => intro f; simp
  | succ n' ih =>
    intro f
    cases f with
    | zero => rfl
    | succ f' => exact ih f'

/-! ## C6: missing target-matrix lookup raises -/

theorem computeAux_error_of_missing (tcr tpr : List String) (cid : String)
    (h2 : cid ∈ tpr) (h3 : cid ∉ tcr) :
    ∀ (l : List String) (idx count : Nat) (st : SampleRecords), cid ∈ l →
      ∃ e, computeAux tcr tpr l idx count st = Except.error e := by
  intro l
  induction l with
  | nil => intro idx count st h; cases h
  | cons y rest ih =>
    intro idx count st hmem
    by_cases hy : y = cid
    · subst hy
      refine ⟨"ValueError: case_id is not in list", ?_⟩
      simp [computeAux, h2, pyIndex_eq_none y tcr h3]
    · have hrest : cid ∈ rest := by
        cases List.mem_cons.mp hmem with
        | inl h0 => exact absurd h0.symm hy
        | inr h0 => exact h0
      by_cases hyt : y ∈ tpr
      · cases hpi : pyIndex y tcr with
        | none =>
          exact ⟨"ValueError: case_id is not in list", by simp [computeAux, hyt, hpi]⟩
        | some t =>
          obtain ⟨e, he⟩ := ih (idx + 1) (count + 1)
            { samples_full := st.samples_full ++ [idx]
              target_full := st.target_full ++ [t]
              feat_targ_full := st.feat_targ_full ++ [y]
              sam_folds := updateFold st.sam_folds (count % 5) idx
              tar_folds := updateFold st.tar_folds (count % 5) t
              feat_folds := updateFold st.feat_folds (count % 5) y } hrest
          exact ⟨e, by simp [computeAux, hyt, hpi, he]⟩
      · obtain ⟨e, he⟩ := ih (idx + 1) count st hrest
        exact ⟨e, by simp [computeAux, hyt, he]⟩

/-- C6: a case id that is marked present for a target but missing from
the target-matrix case order makes the Sample Indexer's per-target row
computation raise (the `.index` lookup at lines 198/201 has no match),
rather than skip the case or emit a record. -/
theorem C6_missing_lookup_raises (case_order tcr tpr : List String) (cid : String)
    (h1 : cid ∈ case_order) (h2 : cid ∈ tpr) (h3 : cid ∉ tcr) :
    ∃ e, computeRows case_order tcr tpr = Except.error e :=
  computeAux_error_of_missing tcr tpr cid h2 h3 case_order 0 0 initRecords h1

/-- Witness for C6 at a concrete input: case `A` is present for the
target and absent from the target-matrix case order. -/
theorem C6_missing_lookup_raises_witness :
    ∃ e, computeRows ["A"] ["B"] ["A"] = Except.error e :=
  C6_missing_lookup_raises ["A"] ["B"] ["A"] "A" (by decide) (by decide) (by decide)

/-! ## C7: inverse sample sets in run_feature_selection -/

theorem build_inverse_eq_filter :
    ∀ (curr_all fold_samples : List Int),
      build_inverse curr_all fold_samples =
        curr_all.filter (fun x => decide (x ∉ fold_samples)) := by
  intro curr_all
  induction curr_all with
  | nil => intro fold_samples; rfl
  | cons x rest ih =>
    intro fold_samples
    by_cases hx : x ∈ fold_samples
    · simp [build_inverse, hx, ih]
    · simp [build_inverse, hx, ih]

/-- C7: for a key containing `_full`, `run_feature_selection`'s inverse
sample list is that key's own sample list; for any other key it is
exactly the sublist of the target's `_full` list whose entries do not
occur in the fold's list, kept in `_full`-list order (a `filter`), and
membership in the inverse list is equivalent to membership in the
`_full` list minus the fold's list. -/
theorem C7_inverse_sample_sets (samples : String → List Int) (model_key : String) :
    (strContains model_key "_full" = true →
      inverse_samples_for_key samples model_key = samples model_key) ∧
    (strContains model_key "_full" = false →
      inverse_samples_for_key samples model_key =
        (samples ((pySplit model_key '_').headD "" ++ "_full")).filter
          (fun x => decide (x ∉ samples model_key)) ∧
      ∀ x : Int, x ∈ inverse_samples_for_key samples model_key ↔
        (x ∈ samples ((pySplit model_key '_').headD "" ++ "_full") ∧
          x ∉ samples model_key)) := by
  constructor
  · intro h
    simp [inverse_samples_for_key, h]
  · intro h
    have hfil : inverse_samples_for_key samples model_key =
        (samples ((pySplit model_key '_').headD "" ++ "_full")).filter
          (fun x => decide (x ∉ samples model_key)) := by
      simp [inverse_samples_for_key, h, build_inverse_eq_filter]
    refine ⟨hfil, ?_⟩
    intro x
    rw [hfil]
    simp [List.mem_filter]

/-- Witness for C7 at a concrete samples dictionary: target 0's `full`
list is `[1, 2, 3]`, fold key `0_1` holds `[2]`, so the inverse of
`0_1` is `[1, 3]` and the inverse of `0_full` is itself. -/
theorem C7_inverse_sample_sets_witness :
    inverse_samples_for_key
        (fun k => if k = "0_full" then [1, 2, 3] else if k = "0_1" then [2] else [])
        "0_1" = [1, 3] ∧
    inverse_samples_for_key
        (fun k => if k = "0_full" then [1, 2, 3] else if k = "0_1" then [2] else [])
        "0_full" = [1, 2, 3] := by
  constructor
  · have h := (C7_inverse_sample_sets
      (fun k => if k = "0_full" then [1, 2, 3] else if k = "0_1" then [2] else [])
      "0_1").2 (by decide)
    rw [h.1]
    decide
  · have h := (C7_inverse_sample_sets
      (fun k => if k = "0_full" then [1, 2, 3] else if k = "0_1" then [2] else [])
      "0_full").1 (by decide)
    exact h.trans (by decide)

/-! ## C10: a blank line stops the item-present scan -/

theorem loadPresentAux_blank_stops (target_name b : String) (hb : pyRstrip b = "")
    (l2 : List String) :
    ∀ (l1 : List String) (first : Bool) (col : Option Nat) (acc : List String),
      loadPresentAux target_name (l1 ++ b :: l2) first col acc =
        loadPresentAux target_name (l1 ++ [b]) first col acc := by
  intro l1
  induction l1 with
  | nil =>
    intro first col acc
    simp [loadPresentAux, hb]
  | cons x l1 ih =>
    intro first col acc
    simp only [List.cons_append, loadPresentAux]
    split
    · rfl
    · split
      · split
        · rfl
        · exact ih false _ acc
      · split
        · rfl
        · split
          · rfl
          · split
            · split
              · rfl
              · exact ih first col _
            · exact ih first col acc

/-- C10: when the item-presence table contains a blank line, the scan of
`load_target_present_rows` stops there — the result is the same as if
the table ended at that blank line, so cases listed after it are never
added to the present set. -/
theorem C10_blank_line_stops_scan (l1 l2 : List String) (b target_name : String)
    (hb : pyRstrip b = "") :
    load_target_present_rows (l1 ++ b :: l2) target_name =
      load_target_present_rows (l1 ++ [b]) target_name :=
  loadPresentAux_blank_stops target_name b hb l2 l1 true none []

/-- Witness for C10: case `B`, listed with a presence flag after the
blank line, is absent from the loaded present set. -/
theorem C10_blank_line_stops_scan_witness :
    load_target_present_rows ["c,case_id,t", "0,A,1", "", "1,B,1"] "t" =
      load_target_present_rows ["c,case_id,t", "0,A,1", ""] "t" ∧
    load_target_present_rows ["c,case_id,t", "0,A,1", "", "1,B,1"] "t" =
      Except.ok ["A"] :=
  ⟨C10_blank_line_stops_scan ["c,case_id,t", "0,A,1"] ["1,B,1"] "" "t" rfl, rfl⟩

/-! ## C1: the full record of the Sample Indexer -/

/-- The item-presence table of the end-to-end scenario: target `fever`
is present for cases `A`, `C`, `D` (the case id is column 1). -/
def feverItemPresentLines : List String :=
  ["row,case_id,fever", "0,A,1", "1,B,0", "2,C,1", "3,D,1", "4,E,0"]

/-- The feature-matrix (and target-matrix) case order of the scenario. -/
def feverCaseOrder : List String := ["A", "B", "C", "D", "E"]

/-- C1 (code bug at line 187): as written, the per-target body raises
`NameError` on the undefined name `parmas`, so no full record is ever
emitted; with line 187 reading `params` as plainly intended, loading the
item-present table yields present cases `[A, C, D]` and the emitted
fold_type-`full` feature-row index list is exactly `[0, 2, 3]`. -/
theorem C1_full_record_scenario :
    determine_rows_for_target feverItemPresentLines feverCaseOrder feverCaseOrder "fever" =
      Except.error "NameError: name parmas is not defined" ∧
    load_target_present_rows feverItemPresentLines "fever" = Except.ok ["A", "C", "D"] ∧
    (determine_rows_for_target_intended feverItemPresentLines feverCaseOrder feverCaseOrder
        "fever").map SampleRecords.samples_full = Except.ok [0, 2, 3] :=
  ⟨rfl, rfl, rfl⟩

/-! ## C2: the column-matching block of assemble_feature_matrix -/

/-- C2 (code bug at lines 113-121): requesting any non-empty column
matching raises.  `np.where` on the 1-D assembled name vector returns a
1-tuple whose element `[1]` (read at line 117) does not exist, and the
`new_indicies` list being built is dead anyway — lines 119-120 index
with the loop's last `column_index_result` instead.  The claimed
first-match column selection with silent skipping never happens. -/
theorem C2_column_match_raises (full_names to_match : List String) (h : to_match ≠ []) :
    column_match_block full_names to_match =
      Except.error "IndexError: tuple index out of range" := by
  cases to_match with
  | nil => exact absurd rfl h
  | cons x rest => rfl

/-- Witness for C2: matching one present name against a two-name
assembled name vector raises instead of selecting its column. -/
theorem C2_column_match_raises_witness :
    column_match_block ["a_f1", "b_f1"] ["a_f1"] =
      Except.error "IndexError: tuple index out of range" :=
  C2_column_match_raises ["a_f1", "b_f1"] ["a_f1"] (by decide)

/-! ## C9: feature-selection result file rows -/

theorem str_length_ne_zero {s : String} (h : s ≠ "") : s.length ≠ 0 := by
  obtain ⟨d⟩ := s
  cases d with
  | nil => exact absurd rfl h
  | cons c cs => simp [String.length]

/-- C9: one row `model_type:indices` of a feature-selection result file
maps the suffixed model key to the parsed integer index list when the
index part is non-empty, and to the sentinel single-column list `[0]`
when it is empty. -/
theorem C9_fs_row_parsing (row mt si : String) (hsplit : pySplit row ':' = [mt, si]) :
    (si = "" → load_fs_rows "-m" [row] = Except.ok [(mt ++ "-m", [0])]) ∧
    (∀ l : List Int, si ≠ "" → (pySplit si ',').mapM pyInt = some l →
      load_fs_rows "-m" [row] = Except.ok [(mt ++ "-m", l)]) := by
  constructor
  · intro h
    subst h
    simp [load_fs_rows, parse_fs_row, hsplit, List.mapM.loop, Except.map, Except.bind,
      Except.pure]
  · intro l hne hparse
    simp only [List.mapM] at hparse
    simp [load_fs_rows, parse_fs_row, hsplit, hparse, str_length_ne_zero hne,
      List.mapM.loop, Except.map, Except.bind, Except.pure]

/-- Witness for C9: `lr:` (empty index part) yields the sentinel `[0]`;
`sv:1,2` yields the parsed indices `[1, 2]`. -/
theorem C9_fs_row_parsing_witness :
    load_fs_rows "-m" ["lr:"] = Except.ok [("lr-m", [0])] ∧
    load_fs_rows "-m" ["sv:1,2"] = Except.ok [("sv-m", [1, 2])] :=
  ⟨(C9_fs_row_parsing "lr:" "lr" "" (by decide)).1 rfl,
   (C9_fs_row_parsing "sv:1,2" "sv" "1,2" (by decide)).2 [1, 2] (by decide) (by decide)⟩

/-! ## C8: best-combination selection in run_three_model_training -/

theorem foldl_pymax_spec :
    ∀ (rest : List ℚ) (x : ℚ),
      rest.foldl (fun acc y => if y > acc then y else acc) x ∈ x :: rest ∧
      x ≤ rest.foldl (fun acc y => if y > acc then y else acc) x ∧
      ∀ y ∈ rest, y ≤ rest.foldl (fun acc y => if y > acc then y else acc) x := by
  intro rest
  induction rest with
  | nil =>
    intro x
    exact ⟨List.mem_cons_self x [], le_refl x, fun y hy => absurd hy (List.not_mem_nil y)⟩
  | cons z rest ih =>
    intro x
    simp only [List.foldl_cons]
    by_cases hz : z > x
    · rw [if_pos hz]
      obtain ⟨h1, h2, h3⟩ := ih z
      refine ⟨List.mem_cons_of_mem x h1, le_of_lt (lt_of_lt_of_le hz h2), ?_⟩
      intro y hy
      cases List.mem_cons.mp hy with
      | inl h => exact h ▸ h2
      | inr h => exact h3 y h
    · rw [if_neg hz]
      obtain ⟨h1, h2, h3⟩ := ih x
      refine ⟨?_, h2, ?_⟩
      · cases List.mem_cons.mp h1 with
        | inl h => rw [h]; exact List.mem_cons_self x (z :: rest)
        | inr h => exact List.mem_cons_of_mem x (List.mem_cons_of_mem z h)
      · intro y hy
        cases List.mem_cons.mp hy with
        | inl h => exact h ▸ le_trans (not_lt.mp hz) h2
        | inr h => exact h3 y h

theorem pyMax_spec (scores : List ℚ) (m : ℚ) (h : pyMax scores = some m) :
    m ∈ scores ∧ ∀ y ∈ scores, y ≤ m := by
  cases scores with
  | nil => cases h
  | cons x rest =>
    simp only [pyMax, Option.some.injEq] at h
    obtain ⟨h1, h2, h3⟩ := foldl_pymax_spec rest x
    rw [← h]
    refine ⟨h1, ?_⟩
    intro y hy
    cases List.mem_cons.mp hy with
    | inl hx => exact hx ▸ h2
    | inr hr => exact h3 y hr

/-- C8: from six mean cross-validation scores, the trainer picks the
combination of the highest mean score (`scores.index(max(scores))`,
dispatched to the fixed enumeration lr-m, sv-m, rf-m, lr-r, sv-r,
rf-r); on exact ties the lowest combination index wins — every
combination before the chosen one scores strictly lower. -/
theorem C8_best_combination (scores : List ℚ) (h6 : scores.length = 6) :
    ∃ i, best_score_index scores = some i ∧ i < 6 ∧
      choose_model_type scores = some (model_type_names.getD i "") ∧
      (∀ j, j < 6 → scores.getD j 0 ≤ scores.getD i 0) ∧
      (∀ j, j < i → scores.getD j 0 < scores.getD i 0) := by
  cases scores with
  | nil => cases h6
  | cons x rest =>
    have hmax : pyMax (x :: rest) =
        some (rest.foldl (fun acc y => if y > acc then y else acc) x) := rfl
    obtain ⟨hm_mem, hm_ub⟩ := pyMax_spec (x :: rest) _ hmax
    obtain ⟨i, hi⟩ := pyIndex_exists_of_mem _ _ hm_mem
    have hbest : best_score_index (x :: rest) = some i := by
      simp [best_score_index, hmax, hi]
    obtain ⟨hlen, hget, hprev⟩ := pyIndex_spec _ (0 : ℚ) (x :: rest) i hi
    have hlt6 : i < 6 := h6 ▸ hlen
    refine ⟨i, hbest, hlt6, ?_, ?_, ?_⟩
    · have hopt : model_type_names.get? i = some (model_type_names.getD i "") := by
        interval_cases i <;> rfl
      unfold choose_model_type
      rw [hbest]
      exact hopt
    · intro j hj
      have hjlen : j < (x :: rest).length := h6 ▸ hj
      rw [hget, List.getD_eq_get _ _ hjlen]
      exact hm_ub _ (List.get_mem _ _ _)
    · intro j hj
      have hjlen : j < (x :: rest).length := Nat.lt_trans hj hlen
      have hle : (x :: rest).getD j 0 ≤ (x :: rest).getD i 0 := by
        rw [hget, List.getD_eq_get _ _ hjlen]
        exact hm_ub _ (List.get_mem _ _ _)
      exact lt_of_le_of_ne hle (hget ▸ hprev j hj)

/-- Witness for C8: scores `[1, 3, 3, 2, 0, 1]` tie at the maximum on
combinations 1 and 2; the lower index, 1 (`sv-m`), is chosen. -/
theorem C8_best_combination_witness :
    best_score_index [(1 : ℚ), 3, 3, 2, 0, 1] = some 1 ∧
    choose_model_type [(1 : ℚ), 3, 3, 2, 0, 1] = some "sv-m" := by
  obtain ⟨i, hi, hlt, hc, hub, hprev⟩ :=
    C8_best_combination [(1 : ℚ), 3, 3, 2, 0, 1] (by decide)
  have hi1 : i = 1 := by
    have h' : some i = some 1 := by rw [← hi]; decide
    injection h'
  subst hi1
  exact ⟨hi, hc⟩

/-! ## C3: shape invariants of assemble_feature_matrix -/

/-- Shape invariant carried through assembly: 2-D data with `r` rows,
every row as long as the name vector. -/
def assembleInv (r : Nat) (p : NpArray × List String) : Prop :=
  ∃ m, p.1 = NpArray.two m ∧ m.length = r ∧ ∀ row ∈ m, row.length = p.2.length

theorem validPayload_shape (p : NpArray × List String) (h : validPayload p = true) :
    ∃ m, p.1 = NpArray.two m ∧ ∀ row ∈ m, row.length = p.2.length := by
  obtain ⟨d, n⟩ := p
  cases d with
  | one v => cases h
  | two m =>
    refine ⟨m, rfl, ?_⟩
    intro row hrow
    exact beq_iff_eq.mp (List.all_eq_true.mp h row hrow)

theorem zipWith_append_row_lengths :
    ∀ (a b : List (List ℚ)) (c₁ c₂ : Nat),
      (∀ u ∈ a, u.length = c₁) → (∀ u ∈ b, u.length = c₂) →
      ∀ u ∈ List.zipWith (fun u v => u ++ v) a b, u.length = c₁ + c₂ := by
  intro a
  induction a with
  | nil => intro b c₁ c₂ _ _ u hu; simp at hu
  | cons x a ih =>
    intro b c₁ c₂ ha hb u hu
    cases b with
    | nil => simp at hu
    | cons y b =>
      simp only [List.zipWith_cons_cons, List.mem_cons] at hu
      cases hu with
      | inl h =>
        subst h
        rw [List.length_append, ha x (List.mem_cons_self x a), hb y (List.mem_cons_self y b)]
      | inr h =>
        exact ih b c₁ c₂ (fun u hu => ha u (List.mem_cons_of_mem x hu))
          (fun u hu => hb u (List.mem_cons_of_mem y hu)) u h

theorem concat_preserves_inv (idx : Nat) (hidx : idx ≠ 0) (r : Nat)
    (acc : NpArray × List String) (ld : NpArray) (ln : List String)
    (res : NpArray × List String)
    (hacc : assembleInv r acc)
    (hp : validPayload (ld, ln) = true)
    (hok : concat idx (some acc.1) (some acc.2) ld ln = Except.ok res) :
    assembleInv r res := by
  obtain ⟨m, hm, hlen, hrows⟩ := hacc
  obtain ⟨m2, hm2, hrows2⟩ := validPayload_shape (ld, ln) hp
  have hm2' : ld = NpArray.two m2 := hm2
  have hrows2' : ∀ row ∈ m2, row.length = ln.length := hrows2
  rw [hm, hm2'] at hok
  simp only [concat, if_neg hidx, NpArray.ndim, if_pos rfl, npConcatAxis1] at hok
  by_cases hl : m.length = m2.length
  · rw [if_pos hl] at hok
    simp only [Except.map] at hok
    cases hok
    refine ⟨List.zipWith (fun u v => u ++ v) m m2, rfl, ?_, ?_⟩
    · rw [List.length_zipWith, hl, Nat.min_self, ← hl, hlen]
    · intro row hrow
      have hlen2 := zipWith_append_row_lengths m m2 acc.2.length ln.length hrows
        hrows2' row hrow
      simpa [List.length_append] using hlen2
  · rw [if_neg hl] at hok
    cases hok

theorem assembleAux_inv (r : Nat) :
    ∀ (payloads : List (NpArray × List String)) (idx : Nat)
      (a res : NpArray × List String), idx ≠ 0 →
      assembleAux payloads idx (some a) = Except.ok res →
      assembleInv r a →
      (∀ p ∈ payloads, validPayload p = true) →
      assembleInv r res := by
  intro payloads
  induction payloads with
  | nil =>
    intro idx a res _ hok ha _
    simp only [assembleAux] at hok
    cases hok
    exact ha
  | cons p rest ih =>
    intro idx a res hidx hok ha hv
    obtain ⟨ld, ln⟩ := p
    simp only [assembleAux, Option.map_some'] at hok
    cases hc : concat idx (some a.1) (some a.2) ld ln with
    | error e => rw [hc] at hok; cases hok
    | ok acc' =>
      rw [hc] at hok
      exact ih (idx + 1) acc' res (Nat.succ_ne_zero idx) hok
        (concat_preserves_inv idx hidx r a ld ln acc' ha
          (hv (ld, ln) (List.mem_cons_self _ _)) hc)
        (fun q hq => hv q (List.mem_cons_of_mem _ hq))

/-- C3: for a valid input — at least one feature-type payload, each 2-D
with exactly one column per name — a successful assembly yields a name
vector exactly as long as the matrix has columns, and a matrix with as
many rows as the first feature type processed. -/
theorem C3_assemble_shapes (p0 : NpArray × List String) (rest : List (NpArray × List String))
    (res : NpArray × List String)
    (hvalid : ∀ p ∈ p0 :: rest, validPayload p = true)
    (hok : assemble_loop (p0 :: rest) = Except.ok res)
    (hr : p0.1.nrows ≠ 0) :
    res.2.length = res.1.ncols ∧ res.1.nrows = p0.1.nrows := by
  obtain ⟨ld, ln⟩ := p0
  have hok' : assembleAux rest 1 (some (ld, ln)) = Except.ok res := hok
  obtain ⟨m, hm, hrows⟩ := validPayload_shape (ld, ln) (hvalid _ (List.mem_cons_self _ _))
  have hm'' : ld = NpArray.two m := hm
  have hinv0 : assembleInv (NpArray.nrows ld) (ld, ln) :=
    ⟨m, hm, by rw [hm'']; rfl, hrows⟩
  have hinv := assembleAux_inv (NpArray.nrows ld) rest 1 (ld, ln) res one_ne_zero hok'
    hinv0 (fun q hq => hvalid q (List.mem_cons_of_mem _ hq))
  obtain ⟨m', hm', hlen', hrows'⟩ := hinv
  constructor
  · rw [hm']
    cases m' with
    | nil =>
      exact absurd (hlen'.symm.trans rfl) (by simpa using hr)
    | cons row m'' =>
      have hrow := hrows' row (List.mem_cons_self row m'')
      simp [NpArray.ncols, hrow]
  · rw [hm']
    exact hlen'

/-- Witness for C3: two feature types over two cases — a 2x2 block and
a 2x1 block — assemble into a 2x3 matrix carrying three names. -/
theorem C3_assemble_shapes_witness :
    ((["a", "b", "c"] : List String).length =
      (NpArray.two [[1, 2, 5], [3, 4, 6]]).ncols) ∧
    (NpArray.two [[1, 2, 5], [3, 4, 6]]).nrows = (NpArray.two [[1, 2], [3, 4]]).nrows :=
  C3_assemble_shapes (NpArray.two [[1, 2], [3, 4]], ["a", "b"])
    [(NpArray.two [[5], [6]], ["c"])]
    (NpArray.two [[1, 2, 5], [3, 4, 6]], ["a", "b", "c"])
    (by decide) rfl (by decide)

/-! ## C4: round-robin fold assignment -/

theorem enumFrom_concat {α : Type} :
    ∀ (n : Nat) (xs : List α) (x : α),
      List.enumFrom n (xs ++ [x]) = List.enumFrom n xs ++ [(n + xs.length, x)] := by
  intro n xs
  induction xs generalizing n with
  | nil => intro x; simp
  | cons y ys ih =>
    intro x
    have hn : n + 1 + ys.length = n + (ys.length + 1) := by omega
    simp [List.enumFrom_cons, ih (n + 1), hn]

theorem enum_concat {α : Type} (xs : List α) (x : α) :
    (xs ++ [x]).enum = xs.enum ++ [(xs.length, x)] := by
  have h := enumFrom_concat 0 xs x
  simpa [List.enum] using h

theorem computeAux_samples_full (tcr tpr : List String) :
    ∀ (l : List String) (idx count : Nat) (st st' : SampleRecords),
      computeAux tcr tpr l idx count st = Except.ok st' →
      st'.samples_full = st.samples_full ++
        ((List.enumFrom idx l).filter (fun p => decide (p.2 ∈ tpr))).map Prod.fst := by
  intro l
  induction l with
  | nil =>
    intro idx count st st' h
    simp only [computeAux] at h
    cases h
    simp
  | cons y rest ih =>
    intro idx count st st' h
    by_cases hy : y ∈ tpr
    · rw [computeAux, if_pos hy] at h
      cases hpi : pyIndex y tcr with
      | none => rw [hpi] at h; cases h
      | some t =>
        rw [hpi] at h
        have hr := ih (idx + 1) (count + 1) _ st' h
        rw [hr]
        simp [List.enumFrom_cons, List.filter_cons, hy, List.append_assoc]
    · rw [computeAux, if_neg hy] at h
      have hr := ih (idx + 1) count st st' h
      rw [hr]
      simp [List.enumFrom_cons, List.filter_cons, hy]

theorem computeRows_samples_nodup (case_order tcr tpr : List String) (st : SampleRecords)
    (h : computeRows case_order tcr tpr = Except.ok st) : st.samples_full.Nodup := by
  have hchar := computeAux_samples_full tcr tpr case_order 0 0 initRecords st h
  rw [hchar]
  simp only [initRecords, List.nil_append]
  have hsub : List.Sublist
      (((List.enumFrom 0 case_order).filter
        (fun p => decide (p.2 ∈ tpr))).map Prod.fst)
      ((List.enumFrom 0 case_order).map Prod.fst) :=
    List.Sublist.map _ (List.filter_sublist _)
  rw [List.enumFrom_map_fst 0 case_order] at hsub
  exact hsub.nodup (List.nodup_range' 0 case_order.length)

theorem flatten_updateFold_perm {α : Type} :
    ∀ (folds : List (List α)) (i : Nat) (x : α), i < folds.length →
      List.Perm (updateFold folds i x).flatten (folds.flatten ++ [x]) := by
  intro folds
  induction folds with
  | nil => intro i x h; cases h
  | cons g gs ih =>
    intro i x h
    cases i with
    | zero =>
      simp only [updateFold, List.getD_cons_zero, List.set_cons_zero, List.flatten_cons,
        List.append_assoc]
      exact List.Perm.append_left g List.perm_append_comm
    | succ i' =>
      have hstep := ih i' x (Nat.lt_of_succ_lt_succ h)
      simp only [updateFold, List.getD_cons_succ, List.set_cons_succ, List.flatten_cons,
        List.append_assoc]
      exact List.Perm.append_left g hstep

theorem computeAux_folds (tcr tpr : List String) :
    ∀ (l : List String) (idx count : Nat) (st st' : SampleRecords),
      computeAux tcr tpr l idx count st = Except.ok st' →
      st.sam_folds.length = 5 →
      count = st.samples_full.length →
      (∀ f, st.sam_folds.getD f [] =
        (st.samples_full.enum.filter (fun p => decide (p.1 % 5 = f))).map Prod.snd) →
      List.Perm st.sam_folds.flatten st.samples_full →
      st'.sam_folds.length = 5 ∧
      (∀ f, st'.sam_folds.getD f [] =
        (st'.samples_full.enum.filter (fun p => decide (p.1 % 5 = f))).map Prod.snd) ∧
      List.Perm st'.sam_folds.flatten st'.samples_full := by
  intro l
  induction l with
  | nil =>
    intro idx count st st' h h5 hc hchar hperm
    simp only [computeAux] at h
    cases h
    exact ⟨h5, hchar, hperm⟩
  | cons y rest ih =>
    intro idx count st st' h h5 hc hchar hperm
    by_cases hy : y ∈ tpr
    · rw [computeAux, if_pos hy] at h
      cases hpi : pyIndex y tcr with
      | none => rw [hpi] at h; cases h
      | some t =>
        rw [hpi] at h
        have hb : count % 5 < st.sam_folds.length := by
          rw [h5]; exact Nat.mod_lt count (by norm_num)
        refine ih (idx + 1) (count + 1) _ st' h ?_ ?_ ?_ ?_
        · show (updateFold st.sam_folds (count % 5) idx).length = 5
          rw [updateFold_length, h5]
        · show count + 1 = (st.samples_full ++ [idx]).length
          rw [List.length_append, ← hc]
          rfl
        · intro f
          show (updateFold st.sam_folds (count % 5) idx).getD f [] =
            ((st.samples_full ++ [idx]).enum.filter
              (fun p => decide (p.1 % 5 = f))).map Prod.snd
          rw [updateFold_getD st.sam_folds (count % 5) idx hb f, enum_concat,
            List.filter_append, List.map_append]
          by_cases hf : f = count % 5
          · rw [if_pos hf, hchar (count % 5), hf, ← hc]
            simp [List.filter_cons]
          · rw [if_neg hf, hchar f, ← hc]
            have hne : ¬ (count % 5 = f) := fun hcf => hf hcf.symm
            simp [List.filter_cons, hne]
        · show List.Perm (updateFold st.sam_folds (count % 5) idx).flatten
            (st.samples_full ++ [idx])
          exact (flatten_updateFold_perm st.sam_folds (count % 5) idx hb).trans
            (hperm.append_right [idx])
    · rw [computeAux, if_neg hy] at h
      exact ih (idx + 1) count st st' h h5 hc hchar hperm

/-- C4: the five fold buckets are filled round-robin — bucket `f` holds
exactly the entries of the `full` feature-row list whose arrival
position `j` satisfies `j % 5 = f`, in order — so their concatenation is
a permutation of the `full` list and contains no duplicates. -/
theorem C4_round_robin_folds (case_order tcr tpr : List String) (st : SampleRecords)
    (h : computeRows case_order tcr tpr = Except.ok st) :
    st.sam_folds.length = 5 ∧
    (∀ f, st.sam_folds.getD f [] =
      (st.samples_full.enum.filter (fun p => decide (p.1 % 5 = f))).map Prod.snd) ∧
    List.Perm st.sam_folds.flatten st.samples_full ∧
    st.sam_folds.flatten.Nodup := by
  have hmain := computeAux_folds tcr tpr case_order 0 0 initRecords st h rfl rfl
    (fun f => by
      rw [show initRecords.sam_folds.getD f [] = [] from getD_replicate_self [] 5 f]
      rfl)
    (by
      rw [show initRecords.sam_folds.flatten = [] from rfl]
      exact List.Perm.refl _)
  exact ⟨hmain.1, hmain.2.1, hmain.2.2,
    hmain.2.2.nodup_iff.mpr (computeRows_samples_nodup case_order tcr tpr st h)⟩

/-- Case order of the C4 witness scenario: seven cases, all present. -/
def c4CaseOrder : List String := ["A", "B", "C", "D", "E", "F", "G"]

/-- The sample records computed for the C4 witness scenario. -/
def c4Records : SampleRecords :=
  { samples_full := [0, 1, 2, 3, 4, 5, 6]
    target_full := [0, 1, 2, 3, 4, 5, 6]
    feat_targ_full := ["A", "B", "C", "D", "E", "F", "G"]
    sam_folds := [[0, 5], [1, 6], [2], [3], [4]]
    tar_folds := [[0, 5], [1, 6], [2], [3], [4]]
    feat_folds := [["A", "F"], ["B", "G"], ["C"], ["D"], ["E"]] }

/-- Witness for C4: seven present cases distribute round-robin as
`[[0,5],[1,6],[2],[3],[4]]`, whose concatenation has no duplicates. -/
theorem C4_round_robin_folds_witness :
    c4Records.sam_folds.flatten.Nodup ∧ c4Records.sam_folds.getD 0 [] = [0, 5] := by
  have h := C4_round_robin_folds c4CaseOrder c4CaseOrder c4CaseOrder c4Records rfl
  exact ⟨h.2.2.2, (h.2.1 0).trans (by decide)⟩

/-! ## C5: the three sample-index outputs are parallel -/

/-- The alignment invariant between a feature-row index list, a
target-row index list, and a case-id list emitted under one key: entry
by entry, the feature index is a position of that case id in the
feature-matrix case order, and the target index is the first position
of the same case id in the target-matrix case order. -/
def tripleParallel (case_order tcr : List String) (fi ti : List Nat) (ci : List String) : Prop :=
  List.Forall₂ (fun i c => case_order.get? i = some c) fi ci ∧
  List.Forall₂ (fun t c => pyIndex c tcr = some t) ti ci

theorem computeAux_parallel (case_order tcr tpr : List String) :
    ∀ (l : List String) (idx count : Nat) (st st' : SampleRecords),
      computeAux tcr tpr l idx count st = Except.ok st' →
      (∀ k, l.get? k = case_order.get? (idx + k)) →
      st.sam_folds.length = 5 → st.tar_folds.length = 5 → st.feat_folds.length = 5 →
      tripleParallel case_order tcr st.samples_full st.target_full st.feat_targ_full →
      (∀ f, tripleParallel case_order tcr (st.sam_folds.getD f [])
        (st.tar_folds.getD f []) (st.feat_folds.getD f [])) →
      (st'.sam_folds.length = 5 ∧ st'.tar_folds.length = 5 ∧ st'.feat_folds.length = 5) ∧
      tripleParallel case_order tcr st'.samples_full st'.target_full st'.feat_targ_full ∧
      (∀ f, tripleParallel case_order tcr (st'.sam_folds.getD f [])
        (st'.tar_folds.getD f []) (st'.feat_folds.getD f [])) := by
  intro l
  induction l with
  | nil =>
    intro idx count st st' h hk h5s h5t h5f hfull hfolds
    simp only [computeAux] at h
    cases h
    exact ⟨⟨h5s, h5t, h5f⟩, hfull, hfolds⟩
  | cons y rest ih =>
    intro idx count st st' h hk h5s h5t h5f hfull hfolds
    by_cases hy : y ∈ tpr
    · rw [computeAux, if_pos hy] at h
      cases hpi : pyIndex y tcr with
      | none => rw [hpi] at h; cases h
      | some t =>
        rw [hpi] at h
        have hcoidx : case_order.get? idx = some y := by
          have h0 := hk 0
          simpa using h0.symm
        have hb : count % 5 < 5 := Nat.mod_lt count (by norm_num)
        refine ih (idx + 1) (count + 1) _ st' h ?_ ?_ ?_ ?_ ?_ ?_
        · intro k
          have hk1 := hk (k + 1)
          rw [show idx + 1 + k = idx + (k + 1) from by omega]
          simpa using hk1
        · show (updateFold st.sam_folds (count % 5) idx).length = 5
          rw [updateFold_length, h5s]
        · show (updateFold st.tar_folds (count % 5) t).length = 5
          rw [updateFold_length, h5t]
        · show (updateFold st.feat_folds (count % 5) y).length = 5
          rw [updateFold_length, h5f]
        · show tripleParallel case_order tcr (st.samples_full ++ [idx])
            (st.target_full ++ [t]) (st.feat_targ_full ++ [y])
          exact ⟨List.rel_append hfull.1 (List.Forall₂.cons hcoidx List.Forall₂.nil),
            List.rel_append hfull.2 (List.Forall₂.cons hpi List.Forall₂.nil)⟩
        · intro f
          show tripleParallel case_order tcr
            ((updateFold st.sam_folds (count % 5) idx).getD f [])
            ((updateFold st.tar_folds (count % 5) t).getD f [])
            ((updateFold st.feat_folds (count % 5) y).getD f [])
          rw [updateFold_getD st.sam_folds (count % 5) idx (by rw [h5s]; exact hb) f,
            updateFold_getD st.tar_folds (count % 5) t (by rw [h5t]; exact hb) f,
            updateFold_getD st.feat_folds (count % 5) y (by rw [h5f]; exact hb) f]
          by_cases hf : f = count % 5
          · rw [if_pos hf, if_pos hf, if_pos hf]
            exact ⟨List.rel_append (hfolds (count % 5)).1
                (List.Forall₂.cons hcoidx List.Forall₂.nil),
              List.rel_append (hfolds (count % 5)).2
                (List.Forall₂.cons hpi List.Forall₂.nil)⟩
          · rw [if_neg hf, if_neg hf, if_neg hf]
            exact hfolds f
    · rw [computeAux, if_neg hy] at h
      refine ih (idx + 1) count st st' h ?_ h5s h5t h5f hfull hfolds
      intro k
      have hk1 := hk (k + 1)
      rw [show idx + 1 + k = idx + (k + 1) from by omega]
      simpa using hk1

/-- C5: under every key, the three emitted lists (feature-row indices,
target-row indices, case ids) have equal length and are aligned entry
by entry — position `i` of all three refers to the same case: the
feature index is that case's position in the feature-matrix case order,
the target index is the first position of the same case id in the
target-matrix case order, and the case-id entry is that id.  This holds
for the `full` key and for each of the five fold keys. -/
theorem C5_three_outputs_parallel (case_order tcr tpr : List String) (st : SampleRecords)
    (h : computeRows case_order tcr tpr = Except.ok st) :
    (st.samples_full.length = st.feat_targ_full.length ∧
     st.target_full.length = st.feat_targ_full.length ∧
     tripleParallel case_order tcr st.samples_full st.target_full st.feat_targ_full) ∧
    ∀ f, (st.sam_folds.getD f []).length = (st.feat_folds.getD f []).length ∧
      (st.tar_folds.getD f []).length = (st.feat_folds.getD f []).length ∧
      tripleParallel case_order tcr (st.sam_folds.getD f []) (st.tar_folds.getD f [])
        (st.feat_folds.getD f []) := by
  have hmain := computeAux_parallel case_order tcr tpr case_order 0 0 initRecords st h
    (fun k => by simp) rfl rfl rfl ⟨List.Forall₂.nil, List.Forall₂.nil⟩
    (fun f => by
      rw [show initRecords.sam_folds.getD f [] = [] from getD_replicate_self [] 5 f,
        show initRecords.tar_folds.getD f [] = [] from getD_replicate_self [] 5 f,
        show initRecords.feat_folds.getD f [] = [] from getD_replicate_self [] 5 f]
      exact ⟨List.Forall₂.nil, List.Forall₂.nil⟩)
  refine ⟨⟨hmain.2.1.1.length_eq, hmain.2.1.2.length_eq, hmain.2.1⟩, ?_⟩
  intro f
  exact ⟨(hmain.2.2 f).1.length_eq, (hmain.2.2 f).2.length_eq, hmain.2.2 f⟩

/-- The sample records computed for the C5 witness scenario. -/
def c5Records : SampleRecords :=
  { samples_full := [0, 2]
    target_full := [2, 0]
    feat_targ_full := ["A", "C"]
    sam_folds := [[0], [2], [], [], []]
    tar_folds := [[2], [0], [], [], []]
    feat_folds := [["A"], ["C"], [], [], []] }

/-- Witness for C5: with case order `[A,B,C]`, target order `[C,B,A]`
and present cases `A`, `C`, the full lists `[0,2]`, `[2,0]`, `[A,C]`
are aligned entry by entry. -/
theorem C5_three_outputs_parallel_witness :
    tripleParallel ["A", "B", "C"] ["C", "B", "A"] [0, 2] [2, 0] ["A", "C"] := by
  have h := C5_three_outputs_parallel ["A", "B", "C"] ["C", "B", "A"] ["A", "C"]
    c5Records rfl
  exact h.1.2.2

end PatientPy
